import Mathlib

/-!
Verification of the geometry codec in `postgres_geometry/fields.py`.

The development shallowly embeds the module's pure core: the float literal
grammar `_FLOAT_RE`, `Point` and `Circle` with their `from_string` parsers and
formatting, the `PointMixin` point-sequence codec (`SPLIT_RE` tokenizer,
`to_python`, `_get_prep_value`) and the per-shape `get_prep_value` validators
of `SegmentPathField`, `PolygonField`, `SegmentField`, `BoxField` and
`CircleField`.

Modelling choices, documented once here:

* Numbers.  Coordinates and radii are modelled as exact rationals `ℚ`.  A
  finite binary float is a rational whose reduced denominator divides a power
  of ten, so the decidable predicate `isDecDen q.den` (denominator has only 2
  and 5 as prime factors) carves out a superset of the finite doubles.
  Python's default float formatting (shortest round-tripping representation)
  is modelled by `renderFloat` as the exact terminating decimal expansion,
  which `float` parsing recovers exactly; arithmetic inside the executable
  definitions is integer arithmetic plus `mkRat` so that every definition
  evaluates by kernel reduction.

* Regular expressions.  Each regex of the source is fixed and simple enough
  to admit an equivalent deterministic parser.  For `POINT_RE`
  `\((x),(y)\)` with `x`, `y` instances of `_FLOAT_RE`: a float token cannot
  contain a comma, so in any successful match the `x` group ends exactly at
  the first comma after the opening parenthesis; likewise `y` ends at the
  first closing parenthesis after that comma, and the radius group of
  `CIRCLE_RE` at the first closing angle bracket.  The backtracking engine
  therefore has at most one way to match, which the parsers below compute.
  `re.match` anchors at the start only; the unconsumed remainder is returned.
  `SPLIT_RE` `findall` is a left-to-right scan: at an opening parenthesis not
  followed by a second one, the lazy group matches up to the first closing
  parenthesis (failing if a newline intervenes, since the dot does not match
  newlines); on failure the scan advances one character.

* Python specifics.  Truthiness of an optional point list is `none`-or-empty
  being falsy.  In the `CircleField` format template the doubled closing curly
  bracket does not act as an escape: the first bracket of the pair closes the
  center-y replacement field, so the remaining lone closing bracket makes
  `str.format` itself raise `ValueError` (message: Single, a quoted closing
  curly bracket, encountered in format string) before any text is produced.
  Errors raised (`ValueError`) are modelled by `Except String`.
-/

namespace PG

/-- Value of a decimal digit character, as Python's int/float parsing uses it. -/
def digitVal (c : Char) : ℕ := c.toNat - 48

/-- Value of a most-significant-first run of decimal digit characters. -/
def digitsToNat (cs : List Char) : ℕ := cs.foldl (fun a c => 10 * a + digitVal c) 0

/-- The regex piece `[0-9]+` as a full-token match, returning the numeric value. -/
def parseUDigits (cs : List Char) : Option ℕ :=
  if cs.isEmpty then none
  else if cs.all Char.isDigit then some (digitsToNat cs) else none

/-- Split a character list at the first character satisfying `p`, dropping it.
Returns `none` when no character satisfies `p`. -/
def splitAtFirst (p : Char → Bool) : List Char → Option (List Char × List Char)
  | [] => none
  | c :: cs =>
    if p c then some ([], cs)
    else (splitAtFirst p cs).map (fun x => (c :: x.1, x.2))

/-- Exact value of a parsed decimal literal: sign, scaled mantissa `n / 10 ^ k`
and decimal exponent `e`, i.e. the rational `(-1)^neg * n * 10 ^ e / 10 ^ k`,
computed with integer arithmetic and `mkRat` only. -/
def decToRat (neg : Bool) (n : ℕ) (k : ℕ) (e : ℤ) : ℚ :=
  let sn : ℤ := if neg then -(n : ℤ) else (n : ℤ)
  if 0 ≤ e then mkRat (sn * (10 : ℤ) ^ e.toNat) (10 ^ k)
  else mkRat sn (10 ^ (k + (-e).toNat))

/-- The regex piece `[0-9]*\.?[0-9]+` as a full-token match.  Returns the
mantissa as a pair `(n, k)` denoting `n / 10 ^ k`: either a bare digit run, or
an optional digit run, one dot, and a non-empty digit run. -/
def parseMantissa (cs : List Char) : Option (ℕ × ℕ) :=
  match splitAtFirst (fun c => c = '.') cs with
  | none => (parseUDigits cs).map (fun n => (n, 0))
  | some x =>
    if x.1.all Char.isDigit then
      (parseUDigits x.2).map (fun f => (digitsToNat x.1 * 10 ^ x.2.length + f, x.2.length))
    else none

/-- The regex piece `[-+]?[0-9]+` after the exponent marker, as a full-token
match with its signed value. -/
def parseExpPart (cs : List Char) : Option ℤ :=
  match cs with
  | [] => none
  | c :: rest =>
    if c = '+' then (parseUDigits rest).map (fun n => (n : ℤ))
    else if c = '-' then (parseUDigits rest).map (fun n => -(n : ℤ))
    else (parseUDigits (c :: rest)).map (fun n => (n : ℤ))

/-- The leading `[-+]?` of the float regex: strip one sign character,
remembering whether it was a minus. -/
def stripSign (cs : List Char) : Bool × List Char :=
  match cs with
  | [] => (false, [])
  | c :: rest =>
    if c = '-' then (true, rest)
    else if c = '+' then (false, rest)
    else (false, c :: rest)

/-- Full-token match of `_FLOAT_RE` `[-+]?[0-9]*\.?[0-9]+([eE][-+]?[0-9]+)?`
combined with Python `float` conversion of the matched text, yielding the
exact decimal value.  Since neither mantissa nor exponent digits can contain
the markers `e`/`E`, the token splits deterministically at its first marker. -/
def floatOfTok (cs : List Char) : Option ℚ :=
  let s := stripSign cs
  match splitAtFirst (fun c => c = 'e' || c = 'E') s.2 with
  | none => (parseMantissa s.2).map (fun m => decToRat s.1 m.1 m.2 0)
  | some x =>
    match parseMantissa x.1, parseExpPart x.2 with
    | some m, some e => some (decToRat s.1 m.1 m.2 e)
    | _, _ => none

/-- Repeatedly divide `n` by `p`, with explicit fuel (any fuel at least `n`
suffices); returns the exponent removed and the remaining cofactor. -/
def factorOutAux (p : ℕ) : ℕ → ℕ → ℕ × ℕ
  | 0, n => (0, n)
  | f + 1, n =>
    if n ≠ 0 ∧ p ∣ n then
      ((factorOutAux p f (n / p)).1 + 1, (factorOutAux p f (n / p)).2)
    else (0, n)

/-- Largest power of `p` dividing `n` (for `p ≥ 2`, `n ≥ 1`), with cofactor. -/
def factorOut (p n : ℕ) : ℕ × ℕ := factorOutAux p n n

/-- Decides whether a reduced denominator divides some power of ten, i.e. has
no prime factors besides 2 and 5.  Finite binary floats are such rationals. -/
def isDecDen (d : ℕ) : Bool := (factorOut 5 (factorOut 2 d).2).2 == 1

/-- Number of decimal fractional digits used to print `q` (at least one, as
Python always prints a fractional part for a float). -/
def renderScale (q : ℚ) : ℕ :=
  max (max (factorOut 2 q.den).1 (factorOut 5 (factorOut 2 q.den).2).1) 1

/-- Little-endian decimal digit characters of `n`, with explicit fuel. -/
def natDigitsAux : ℕ → ℕ → List Char
  | 0, _ => []
  | _ + 1, 0 => []
  | f + 1, n + 1 => Nat.digitChar ((n + 1) % 10) :: natDigitsAux f ((n + 1) / 10)

/-- Decimal digit characters of `n`, most significant first; `0` prints `0`. -/
def natToDigitChars (n : ℕ) : List Char :=
  if n = 0 then ['0'] else (natDigitsAux n n).reverse

/-- Left-pad a digit run with zeros to length `k`. -/
def padLeft (k : ℕ) (cs : List Char) : List Char :=
  List.replicate (k - cs.length) '0' ++ cs

/-- Python's default string conversion of a float, modelled as the exact
terminating decimal expansion of a decimal rational: optional minus sign,
integer digits, one dot, and `renderScale q` fractional digits. -/
def renderFloat (q : ℚ) : List Char :=
  (if q.num < 0 then ['-'] else [])
    ++ natToDigitChars ((q.num * ((10 : ℤ) ^ renderScale q / (q.den : ℤ))).natAbs / 10 ^ renderScale q)
    ++ '.' :: padLeft (renderScale q)
        (natToDigitChars ((q.num * ((10 : ℤ) ^ renderScale q / (q.den : ℤ))).natAbs % 10 ^ renderScale q))

/-- A point in the plane, as the `Point` class of the source: two coordinates
compared by exact value equality. -/
structure Point where
  x : ℚ
  y : ℚ
  deriving DecidableEq

/-- Formatting `__str__` of `Point`: the text `(x,y)` with the host language's
default float rendering. -/
def Point.str (p : Point) : List Char :=
  '(' :: (renderFloat p.x ++ ',' :: renderFloat p.y ++ [')'])

/-- Anchored match of `POINT_RE` `\((x),(y)\)` at the start of the input.  Per
the forced-match analysis, the `x` group runs to the first comma and the `y`
group to the first closing parenthesis after it; both must fully match the
float grammar.  Returns the two values and the unconsumed remainder. -/
def pointMatchCore (cs : List Char) : Option (ℚ × ℚ × List Char) :=
  match cs with
  | '(' :: rest =>
    match splitAtFirst (fun c => c = ',') rest with
    | none => none
    | some a =>
      match splitAtFirst (fun c => c = ')') a.2 with
      | none => none
      | some b =>
        match floatOfTok a.1, floatOfTok b.1 with
        | some x, some y => some (x, y, b.2)
        | _, _ => none
  | _ => none

/-- The `Point.from_string` classmethod: `re.match` of `POINT_RE` anchored at
position 0, raising `ValueError` with the offending text on mismatch. -/
def Point.fromString (s : String) : Except String Point :=
  match pointMatchCore s.data with
  | some r => .ok ⟨r.1, r.2.1⟩
  | none => .error ("Value " ++ s ++ " is not a valid point")

/-- A circle given by center and radius, as the `Circle` class of the source. -/
structure Circle where
  center : Point
  radius : ℚ
  deriving DecidableEq

/-- One-character test for the regex class `\s` as Python 2's `re` matches it
on byte strings: space, tab, newline, carriage return, vertical tab, form
feed. -/
def isPySpace (c : Char) : Bool :=
  c = ' ' || c = '\t' || c = '\n' || c = '\r' || c = Char.ofNat 11 || c = Char.ofNat 12

/-- Anchored match of `CIRCLE_RE` `<\((x),(y)\),\s(r)>` at the start of the
input: the point part, a comma, exactly one whitespace character, and the
radius group, which runs to the first closing angle bracket. -/
def circleMatchCore (cs : List Char) : Option (Circle × List Char) :=
  match cs with
  | '<' :: rest =>
    match pointMatchCore rest with
    | none => none
    | some xy =>
      match xy.2.2 with
      | ',' :: w :: rest3 =>
        if isPySpace w then
          match splitAtFirst (fun c => c = '>') rest3 with
          | none => none
          | some r =>
            match floatOfTok r.1 with
            | some rv => some (⟨⟨xy.1, xy.2.1⟩, rv⟩, r.2)
            | none => none
        else none
      | _ => none
  | _ => none

/-- The `Circle.from_string` classmethod: `re.match` of `CIRCLE_RE` anchored
at position 0, raising `ValueError` with the offending text on mismatch. -/
def Circle.fromString (s : String) : Except String Circle :=
  match circleMatchCore s.data with
  | some r => .ok r.1
  | none => .error ("Value " ++ s ++ " is not a valid circle")

/-- Scan for the first closing parenthesis, as the lazy tail `.*?\)` of
`SPLIT_RE` behaves: fail on end of input or on a newline (the dot does not
match newlines), otherwise return the consumed body and the remainder. -/
def takeUntilClose : List Char → Option (List Char × List Char)
  | [] => none
  | c :: cs =>
    if c = ')' then some ([], cs)
    else if c = '\n' then none
    else (takeUntilClose cs).map (fun x => (c :: x.1, x.2))

/-- One left-to-right `re.findall` scan of `SPLIT_RE` `\((?!\().*?\)`, with
explicit fuel (any fuel at least the input length suffices): at an opening
parenthesis not followed by another one, match up to the first closing
parenthesis and continue after it; otherwise advance one character. -/
def findallAux : ℕ → List Char → List (List Char)
  | 0, _ => []
  | _ + 1, [] => []
  | f + 1, c :: rest =>
    if c = '(' ∧ rest.head? ≠ some '(' then
      match takeUntilClose rest with
      | some br => ('(' :: br.1 ++ [')']) :: findallAux f br.2
      | none => findallAux f rest
    else findallAux f rest

/-- All matches of `SPLIT_RE` in the input, as `re.findall` returns them. -/
def findall (cs : List Char) : List (List Char) := findallAux cs.length cs

/-- The values a `PointMixin` field's decoder can receive: the absent value,
an already-decoded sequence of points, or raw text from the database. -/
inductive PyValue where
  | pynone
  | pypts (l : List Point)
  | pystr (s : String)
  deriving DecidableEq

/-- The mixin's `to_python`: absence passes through; a sequence whose elements
are all `Point` instances is returned unchanged (for a typed point list the
`all isinstance` test of the source always holds, and it holds vacuously for
empty text, whose characters it inspects); any other text is tokenized by
`SPLIT_RE` and each token parsed by `Point.from_string`. -/
def toPython : PyValue → Except String PyValue
  | .pynone => .ok .pynone
  | .pypts l => .ok (.pypts l)
  | .pystr s =>
    if s.data.isEmpty then .ok (.pystr s)
    else ((findall s.data).mapM (fun t => Point.fromString (String.mk t))).map .pypts

/-- The join `','.join(str(v) for v in values)` of formatted points. -/
def joinPoints : List Point → List Char
  | [] => []
  | [p] => Point.str p
  | p :: ps => Point.str p ++ ',' :: joinPoints ps

/-- The mixin's `_get_prep_value`: the comma join for a truthy sequence,
absence for a falsy (absent or empty) one. -/
def pointsGetPrepValue : Option (List Point) → Option String
  | none => none
  | some l => if l.isEmpty then none else some (String.mk (joinPoints l))

/-- The `SegmentPathField.get_prep_value` validator and serializer: a truthy
sequence needs at least two points and is wrapped in square brackets (the
joined text of a non-empty sequence is non-empty, hence truthy); a falsy
input yields absence. -/
def pathGetPrepValue (v : Option (List Point)) : Except String (Option String) :=
  match v with
  | none => .ok none
  | some l =>
    if l.isEmpty then .ok none
    else if l.length < 2 then .error ("Needs at minimum 2 points")
    else .ok (some ("[" ++ String.mk (joinPoints l) ++ "]"))

/-- The `PolygonField.get_prep_value` validator and serializer: a truthy
sequence needs at least three points, its first and last points must be
equal, and the join is wrapped in parentheses; a falsy input yields
absence. -/
def polygonGetPrepValue (v : Option (List Point)) : Except String (Option String) :=
  match v with
  | none => .ok none
  | some l =>
    if l.isEmpty then .ok none
    else if l.length < 3 then .error ("Needs at minimum 3 points")
    else if l.head? ≠ l.getLast? then .error ("Not self-closing polygon")
    else .ok (some ("(" ++ String.mk (joinPoints l) ++ ")"))

/-- The `SegmentField.get_prep_value` validator and serializer: a truthy
sequence must have exactly two points; the result is the bare join. -/
def segmentGetPrepValue (v : Option (List Point)) : Except String (Option String) :=
  match v with
  | none => .ok (pointsGetPrepValue none)
  | some l =>
    if l.isEmpty then .ok (pointsGetPrepValue (some l))
    else if l.length ≠ 2 then .error ("Segment needs exactly two points")
    else .ok (pointsGetPrepValue (some l))

/-- The `BoxField.get_prep_value` validator and serializer: a truthy sequence
must have exactly two points; the result is the bare join, in input order. -/
def boxGetPrepValue (v : Option (List Point)) : Except String (Option String) :=
  match v with
  | none => .ok (pointsGetPrepValue none)
  | some l =>
    if l.isEmpty then .ok (pointsGetPrepValue (some l))
    else if l.length ≠ 2 then .error ("Box needs exactly two points")
    else .ok (pointsGetPrepValue (some l))

/-- The message of the `ValueError` that `str.format` raises on the
`CircleField` template: the text

  Single (quoted closing curly bracket) encountered in format string

spelled out character by character, with the apostrophe (39) and the closing
curly bracket (125) given by code point. -/
def circleFormatErrorMsg : String := String.mk
  (['S', 'i', 'n', 'g', 'l', 'e', ' ', Char.ofNat 39, Char.ofNat 125, Char.ofNat 39]
    ++ [' ', 'e', 'n', 'c', 'o', 'u', 'n', 't', 'e', 'r', 'e', 'd', ' ', 'i', 'n', ' ']
    ++ ['f', 'o', 'r', 'm', 'a', 't', ' ', 's', 't', 'r', 'i', 'n', 'g'])

/-- The `CircleField.get_prep_value` serializer.  A falsy (absent) value
yields absence.  For a present (always truthy) circle the source evaluates its
format template, in which the first bracket of the doubled closing curly
bracket closes the center-y replacement field; the leftover lone closing
bracket makes `str.format` raise `ValueError` with the message above, so the
method never returns any text. -/
def circleGetPrepValue : Option Circle → Except String (Option String)
  | none => .ok none
  | some _ => .error circleFormatErrorMsg

/-- The `PointField.get_prep_value` serializer: the text `(x,y)` for a truthy
value, absence otherwise (a present point is always truthy). -/
def pointGetPrepValue : Option Point → Option String
  | none => none
  | some p => some (String.mk (Point.str p))

/-! Lemmas about digit rendering and parsing. -/

theorem digitVal_digitChar (d : ℕ) (h : d < 10) : digitVal (Nat.digitChar d) = d := by
  interval_cases d <;> rfl

theorem isDigit_digitChar (d : ℕ) (h : d < 10) : (Nat.digitChar d).isDigit = true := by
  interval_cases d <;> decide

theorem foldl_digits_rev (L : List ℕ) (h : ∀ d ∈ L, d < 10) (a : ℕ) :
    ((L.map Nat.digitChar).reverse).foldl (fun a c => 10 * a + digitVal c) a
      = a * 10 ^ L.length + Nat.ofDigits 10 L := by
  induction L generalizing a with
  | nil => simp [Nat.ofDigits]
  | cons d L ih =>
    rw [List.map_cons, List.reverse_cons, List.foldl_append]
    rw [ih (fun x hx => h x (List.mem_cons_of_mem d hx))]
    simp only [List.foldl_cons, List.foldl_nil, Nat.ofDigits_cons, List.length_cons]
    rw [digitVal_digitChar d (h d (List.mem_cons_self d L))]
    ring

theorem natDigitsAux_eq (f n : ℕ) (h : n ≤ f) :
    natDigitsAux f n = (Nat.digits 10 n).map Nat.digitChar := by
  induction f generalizing n with
  | zero => interval_cases n; simp [natDigitsAux]
  | succ f ih =>
    cases n with
    | zero => simp [natDigitsAux]
    | succ m =>
      rw [natDigitsAux, Nat.digits_def' (by norm_num : 1 < 10) (Nat.succ_pos m), List.map_cons]
      have hlt : (m + 1) / 10 < m + 1 := Nat.div_lt_self (Nat.succ_pos m) (by norm_num)
      rw [ih ((m + 1) / 10) (by omega)]

theorem digitsToNat_natToDigitChars (n : ℕ) : digitsToNat (natToDigitChars n) = n := by
  by_cases h : n = 0
  · subst h; rfl
  · rw [natToDigitChars, if_neg h, natDigitsAux_eq n n le_rfl]
    have hfold := foldl_digits_rev (Nat.digits 10 n)
      (fun d hd => Nat.digits_lt_base (by norm_num) hd) 0
    simpa [digitsToNat, Nat.ofDigits_digits] using hfold

theorem mem_natToDigitChars_isDigit (n : ℕ) (c : Char) (hc : c ∈ natToDigitChars n) :
    c.isDigit = true := by
  by_cases h : n = 0
  · subst h; simp [natToDigitChars] at hc; subst hc; decide
  · rw [natToDigitChars, if_neg h, natDigitsAux_eq n n le_rfl] at hc
    rw [List.mem_reverse, List.mem_map] at hc
    obtain ⟨d, hd, rfl⟩ := hc
    exact isDigit_digitChar d (Nat.digits_lt_base (by norm_num) hd)

theorem all_isDigit_natToDigitChars (n : ℕ) : (natToDigitChars n).all Char.isDigit = true := by
  rw [List.all_eq_true]
  exact fun c hc => mem_natToDigitChars_isDigit n c hc

theorem natToDigitChars_ne_nil (n : ℕ) : natToDigitChars n ≠ [] := by
  by_cases h : n = 0
  · subst h; simp [natToDigitChars]
  · rw [natToDigitChars, if_neg h, natDigitsAux_eq n n le_rfl]
    simp [Nat.digits_ne_nil_iff_ne_zero, h]

theorem length_natToDigitChars_le (n k : ℕ) (hk : 1 ≤ k) (h : n < 10 ^ k) :
    (natToDigitChars n).length ≤ k := by
  by_cases h0 : n = 0
  · subst h0; simpa [natToDigitChars] using hk
  · rw [natToDigitChars, if_neg h0, natDigitsAux_eq n n le_rfl,
      List.length_reverse, List.length_map, Nat.digits_len 10 n (by norm_num) h0]
    have hlog : Nat.log 10 n < k := Nat.log_lt_of_lt_pow h0 h
    omega

theorem length_padLeft (k : ℕ) (cs : List Char) (h : cs.length ≤ k) :
    (padLeft k cs).length = k := by
  simp [padLeft]; omega

theorem mem_padLeft_isDigit (k : ℕ) (n : ℕ) (c : Char)
    (hc : c ∈ padLeft k (natToDigitChars n)) : c.isDigit = true := by
  rw [padLeft, List.mem_append] at hc
  rcases hc with hc | hc
  · rw [List.eq_of_mem_replicate hc]; decide
  · exact mem_natToDigitChars_isDigit n c hc

theorem foldl_replicate_zero (z : ℕ) (cs : List Char) :
    (List.replicate z '0' ++ cs).foldl (fun a c => 10 * a + digitVal c) 0
      = cs.foldl (fun a c => 10 * a + digitVal c) 0 := by
  induction z with
  | zero => rfl
  | succ z ih => simpa [List.replicate_succ] using ih

theorem digitsToNat_padLeft (k : ℕ) (cs : List Char) :
    digitsToNat (padLeft k cs) = digitsToNat cs := by
  rw [padLeft, digitsToNat, foldl_replicate_zero]; rfl

theorem parseUDigits_eq (cs : List Char) (h1 : cs ≠ []) (h2 : cs.all Char.isDigit = true) :
    parseUDigits cs = some (digitsToNat cs) := by
  rw [parseUDigits, if_neg (by simpa [List.isEmpty_iff] using h1), if_pos h2]

/-! Lemmas about list splitting and character classes. -/

theorem splitAtFirst_eq_none (p : Char → Bool) (cs : List Char)
    (h : ∀ c ∈ cs, p c = false) : splitAtFirst p cs = none := by
  induction cs with
  | nil => rfl
  | cons c cs ih =>
    rw [splitAtFirst, if_neg (by simp [h c (List.mem_cons_self c cs)]),
      ih (fun x hx => h x (List.mem_cons_of_mem c hx))]
    rfl

theorem splitAtFirst_append (p : Char → Bool) (xs : List Char) (c : Char) (ys : List Char)
    (hxs : ∀ a ∈ xs, p a = false) (hc : p c = true) :
    splitAtFirst p (xs ++ c :: ys) = some (xs, ys) := by
  induction xs with
  | nil => simp [splitAtFirst, hc]
  | cons a xs ih =>
    rw [List.cons_append, splitAtFirst, if_neg (by simp [hxs a (List.mem_cons_self a xs)]),
      ih (fun x hx => hxs x (List.mem_cons_of_mem a hx))]
    rfl

theorem tokChar_facts (c : Char) (h : c.isDigit = true ∨ c = '.' ∨ c = '-') :
    c ≠ ',' ∧ c ≠ ')' ∧ c ≠ '(' ∧ c ≠ '\n' ∧ c ≠ 'e' ∧ c ≠ 'E' ∧ c ≠ '>' := by
  rcases h with h | h | h
  · refine ⟨?_, ?_, ?_, ?_, ?_, ?_, ?_⟩ <;> (intro he; subst he; exact absurd h (by decide))
  · subst h; refine ⟨by decide, by decide, by decide, by decide, by decide, by decide, by decide⟩
  · subst h; refine ⟨by decide, by decide, by decide, by decide, by decide, by decide, by decide⟩

/-! Lemmas about the float token round trip. -/

theorem stripSign_of_digit (c : Char) (cs : List Char) (h : c.isDigit = true) :
    stripSign (c :: cs) = (false, c :: cs) := by
  have h1 : c ≠ '-' := by intro he; subst he; exact absurd h (by decide)
  have h2 : c ≠ '+' := by intro he; subst he; exact absurd h (by decide)
  rw [stripSign, if_neg h1, if_neg h2]

theorem stripSign_minus (cs : List Char) : stripSign ('-' :: cs) = (true, cs) := rfl

theorem parseMantissa_append (A B : List Char) (hA : A.all Char.isDigit = true)
    (hB : B ≠ []) (hBd : B.all Char.isDigit = true) :
    parseMantissa (A ++ '.' :: B)
      = some (digitsToNat A * 10 ^ B.length + digitsToNat B, B.length) := by
  have hsplit : splitAtFirst (fun c => c = '.') (A ++ '.' :: B) = some (A, B) := by
    apply splitAtFirst_append
    · intro a ha
      have had := List.all_eq_true.mp hA a ha
      simp only [decide_eq_false_iff_not]
      intro he; subst he; exact absurd had (by decide)
    · simp
  simp only [parseMantissa, hsplit, hA, if_true, parseUDigits_eq B hB hBd, Option.map_some']

theorem tokRun_not_expMark (A B : List Char) (hA : A.all Char.isDigit = true)
    (hBd : B.all Char.isDigit = true) (a : Char) (ha : a ∈ A ++ '.' :: B) :
    (fun c => c = 'e' || c = 'E') a = false := by
  have hcs : a.isDigit = true ∨ a = '.' ∨ a = '-' := by
    rcases List.mem_append.mp ha with h | h
    · exact Or.inl (List.all_eq_true.mp hA a h)
    · rcases List.mem_cons.mp h with h | h
      · exact Or.inr (Or.inl h)
      · exact Or.inl (List.all_eq_true.mp hBd a h)
  obtain ⟨-, -, -, -, he, hE, -⟩ := tokChar_facts a hcs
  simp [he, hE]

theorem floatOfTok_digits_pos (A B : List Char) (hA : A ≠ []) (hAd : A.all Char.isDigit = true)
    (hB : B ≠ []) (hBd : B.all Char.isDigit = true) :
    floatOfTok (A ++ '.' :: B)
      = some (decToRat false (digitsToNat A * 10 ^ B.length + digitsToNat B) B.length 0) := by
  obtain ⟨c, A', rfl⟩ := List.exists_cons_of_ne_nil hA
  have hcd : c.isDigit = true := List.all_eq_true.mp hAd c (List.mem_cons_self c A')
  have hstrip : stripSign (c :: A' ++ '.' :: B) = (false, c :: A' ++ '.' :: B) :=
    stripSign_of_digit c (A' ++ '.' :: B) hcd
  have hsplit : splitAtFirst (fun c => c = 'e' || c = 'E') (c :: A' ++ '.' :: B) = none :=
    splitAtFirst_eq_none _ _ (tokRun_not_expMark (c :: A') B hAd hBd)
  simp only [floatOfTok, hstrip, hsplit, parseMantissa_append (c :: A') B hAd hB hBd,
    Option.map_some']

theorem floatOfTok_digits_neg (A B : List Char) (hAd : A.all Char.isDigit = true)
    (hB : B ≠ []) (hBd : B.all Char.isDigit = true) :
    floatOfTok ('-' :: (A ++ '.' :: B))
      = some (decToRat true (digitsToNat A * 10 ^ B.length + digitsToNat B) B.length 0) := by
  have hstrip : stripSign ('-' :: (A ++ '.' :: B)) = (true, A ++ '.' :: B) := rfl
  have hsplit : splitAtFirst (fun c => c = 'e' || c = 'E') (A ++ '.' :: B) = none :=
    splitAtFirst_eq_none _ _ (tokRun_not_expMark A B hAd hBd)
  simp only [floatOfTok, hstrip, hsplit, parseMantissa_append A B hAd hB hBd, Option.map_some']

theorem decToRat_zero (neg : Bool) (n k : ℕ) :
    decToRat neg n k 0 = mkRat (if neg then -(n : ℤ) else (n : ℤ)) (10 ^ k) := by
  simp [decToRat]

theorem factorOutAux_mul (p : ℕ) (hp : 2 ≤ p) (f : ℕ) :
    ∀ n, n ≤ f → p ^ (factorOutAux p f n).1 * (factorOutAux p f n).2 = n := by
  induction f with
  | zero =>
    intro n hn
    interval_cases n
    simp [factorOutAux]
  | succ f ih =>
    intro n hn
    by_cases hc : n ≠ 0 ∧ p ∣ n
    · have hlt : n / p < n := Nat.div_lt_self (Nat.pos_of_ne_zero hc.1) (by omega)
      have hrec := ih (n / p) (by omega)
      simp only [factorOutAux, if_pos hc]
      calc p ^ ((factorOutAux p f (n / p)).1 + 1) * (factorOutAux p f (n / p)).2
          = p * (p ^ (factorOutAux p f (n / p)).1 * (factorOutAux p f (n / p)).2) := by ring
        _ = p * (n / p) := by rw [hrec]
        _ = n := Nat.mul_div_cancel' hc.2
    · simp only [factorOutAux, if_neg hc]
      simp

theorem isDecDen_dvd_pow (d k : ℕ) (h : isDecDen d = true)
    (h2 : (factorOut 2 d).1 ≤ k) (h5 : (factorOut 5 (factorOut 2 d).2).1 ≤ k) :
    d ∣ 10 ^ k := by
  rcases hfm : factorOut 2 d with ⟨e2, m⟩
  rcases hfr : factorOut 5 m with ⟨e5, r⟩
  rw [hfm] at h2 h5
  rw [hfr] at h5
  have hd2 : 2 ^ e2 * m = d := by
    have hmul := factorOutAux_mul 2 (by norm_num) d d le_rfl
    rw [show factorOutAux 2 d d = factorOut 2 d from rfl, hfm] at hmul
    exact hmul
  have hd5 : 5 ^ e5 * r = m := by
    have hmul := factorOutAux_mul 5 (by norm_num) m m le_rfl
    rw [show factorOutAux 5 m m = factorOut 5 m from rfl, hfr] at hmul
    exact hmul
  have hr1 : r = 1 := by simpa [isDecDen, hfm, hfr] using h
  have hd : d = 2 ^ e2 * 5 ^ e5 := by rw [← hd2, ← hd5, hr1, mul_one]
  have h10 : (10 : ℕ) ^ k = 2 ^ k * 5 ^ k := by
    rw [show (10 : ℕ) = 2 * 5 from rfl, mul_pow]
  rw [hd, h10]
  exact mul_dvd_mul (pow_dvd_pow 2 (by simpa using h2)) (pow_dvd_pow 5 (by simpa using h5))

theorem one_le_renderScale (q : ℚ) : 1 ≤ renderScale q := by
  unfold renderScale
  exact le_max_right _ 1

theorem fo2_le_renderScale (q : ℚ) : (factorOut 2 q.den).1 ≤ renderScale q := by
  unfold renderScale
  exact le_trans (le_max_left _ _) (le_max_left _ 1)

theorem fo5_le_renderScale (q : ℚ) : (factorOut 5 (factorOut 2 q.den).2).1 ≤ renderScale q := by
  unfold renderScale
  exact le_trans (le_max_right _ _) (le_max_left _ 1)

theorem floatOfTok_block_pos (a b k : ℕ) (hk : 1 ≤ k) (hb : b < 10 ^ k) :
    floatOfTok (natToDigitChars a ++ '.' :: padLeft k (natToDigitChars b))
      = some (mkRat ((a * 10 ^ k + b : ℕ) : ℤ) (10 ^ k)) := by
  have hlen : (padLeft k (natToDigitChars b)).length = k :=
    length_padLeft _ _ (length_natToDigitChars_le _ k hk hb)
  have hne : padLeft k (natToDigitChars b) ≠ [] := by
    intro hnil
    rw [hnil] at hlen
    simp at hlen
    omega
  have hBd : (padLeft k (natToDigitChars b)).all Char.isDigit = true := by
    rw [List.all_eq_true]
    exact fun c hc => mem_padLeft_isDigit _ _ c hc
  rw [floatOfTok_digits_pos _ _ (natToDigitChars_ne_nil a) (all_isDigit_natToDigitChars a)
    hne hBd]
  rw [decToRat_zero, hlen, digitsToNat_natToDigitChars, digitsToNat_padLeft,
    digitsToNat_natToDigitChars]
  rfl

theorem floatOfTok_block_neg (a b k : ℕ) (hk : 1 ≤ k) (hb : b < 10 ^ k) :
    floatOfTok ('-' :: (natToDigitChars a ++ '.' :: padLeft k (natToDigitChars b)))
      = some (mkRat (-((a * 10 ^ k + b : ℕ) : ℤ)) (10 ^ k)) := by
  have hlen : (padLeft k (natToDigitChars b)).length = k :=
    length_padLeft _ _ (length_natToDigitChars_le _ k hk hb)
  have hne : padLeft k (natToDigitChars b) ≠ [] := by
    intro hnil
    rw [hnil] at hlen
    simp at hlen
    omega
  have hBd : (padLeft k (natToDigitChars b)).all Char.isDigit = true := by
    rw [List.all_eq_true]
    exact fun c hc => mem_padLeft_isDigit _ _ c hc
  rw [floatOfTok_digits_neg _ _ (all_isDigit_natToDigitChars a) hne hBd]
  rw [decToRat_zero, hlen, digitsToNat_natToDigitChars, digitsToNat_padLeft,
    digitsToNat_natToDigitChars]
  rfl

theorem floatOfTok_renderFloat (q : ℚ) (h : isDecDen q.den = true) :
    floatOfTok (renderFloat q) = some q := by
  have hk1 : 1 ≤ renderScale q := one_le_renderScale q
  have hdvd : q.den ∣ 10 ^ renderScale q :=
    isDecDen_dvd_pow q.den (renderScale q) h (fo2_le_renderScale q) (fo5_le_renderScale q)
  have hdvdZ : (q.den : ℤ) ∣ (10 : ℤ) ^ renderScale q := by
    have hcast := Int.natCast_dvd_natCast.mpr hdvd
    push_cast at hcast
    exact hcast
  have htden : (10 : ℤ) ^ renderScale q / (q.den : ℤ) * (q.den : ℤ)
      = (10 : ℤ) ^ renderScale q := Int.ediv_mul_cancel hdvdZ
  have hdenpos : (0 : ℤ) < (q.den : ℤ) := by exact_mod_cast q.pos
  have htpos : 0 < (10 : ℤ) ^ renderScale q / (q.den : ℤ) := by
    nlinarith [htden, hdenpos, pow_pos (show (0 : ℤ) < 10 by norm_num) (renderScale q)]
  have hNden : q.num * ((10 : ℤ) ^ renderScale q / (q.den : ℤ)) * (q.den : ℤ)
      = q.num * (10 : ℤ) ^ renderScale q := by
    rw [mul_assoc, htden]
  have hden0 : ((q.den : ℚ)) ≠ 0 := by positivity
  have hqnum : (q.num : ℚ) = q * (q.den : ℚ) := (Rat.mul_den_eq_num q).symm
  have hmk : mkRat (q.num * ((10 : ℤ) ^ renderScale q / (q.den : ℤ))) (10 ^ renderScale q)
      = q := by
    have hc := congrArg (fun z : ℤ => (z : ℚ)) hNden
    push_cast at hc
    rw [Rat.mkRat_eq_div]
    push_cast
    rw [div_eq_iff (show ((10 : ℚ)) ^ renderScale q ≠ 0 by positivity)]
    apply mul_right_cancel₀ hden0
    linear_combination hc + ((10 : ℚ) ^ renderScale q) * hqnum
  rcases lt_or_ge q.num 0 with hneg | hpos
  · have hNneg : q.num * ((10 : ℤ) ^ renderScale q / (q.den : ℤ)) ≤ 0 :=
      le_of_lt (mul_neg_of_neg_of_pos hneg htpos)
    have hMN : -(((q.num * ((10 : ℤ) ^ renderScale q / (q.den : ℤ))).natAbs : ℤ))
        = q.num * ((10 : ℤ) ^ renderScale q / (q.den : ℤ)) := by
      rw [Int.ofNat_natAbs_of_nonpos hNneg]
      ring
    have hrender : renderFloat q
        = '-' :: (natToDigitChars ((q.num * ((10 : ℤ) ^ renderScale q / (q.den : ℤ))).natAbs
            / 10 ^ renderScale q)
          ++ '.' :: padLeft (renderScale q)
            (natToDigitChars ((q.num * ((10 : ℤ) ^ renderScale q / (q.den : ℤ))).natAbs
              % 10 ^ renderScale q))) := by
      unfold renderFloat
      rw [if_pos hneg, List.singleton_append]
      rfl
    rw [hrender, floatOfTok_block_neg _ _ _ hk1
      (Nat.mod_lt _ (pow_pos (by norm_num) (renderScale q)))]
    rw [show ∀ m n : ℕ, m / n * n + m % n = m from
      fun m n => by rw [mul_comm]; exact Nat.div_add_mod m n]
    rw [hMN, hmk]
  · have hNpos : 0 ≤ q.num * ((10 : ℤ) ^ renderScale q / (q.den : ℤ)) :=
      mul_nonneg hpos (le_of_lt htpos)
    have hMN : (((q.num * ((10 : ℤ) ^ renderScale q / (q.den : ℤ))).natAbs : ℤ))
        = q.num * ((10 : ℤ) ^ renderScale q / (q.den : ℤ)) := Int.natAbs_of_nonneg hNpos
    have hrender : renderFloat q
        = natToDigitChars ((q.num * ((10 : ℤ) ^ renderScale q / (q.den : ℤ))).natAbs
            / 10 ^ renderScale q)
          ++ '.' :: padLeft (renderScale q)
            (natToDigitChars ((q.num * ((10 : ℤ) ^ renderScale q / (q.den : ℤ))).natAbs
              % 10 ^ renderScale q)) := by
      unfold renderFloat
      rw [if_neg (not_lt.mpr hpos), List.nil_append]
    rw [hrender, floatOfTok_block_pos _ _ _ hk1
      (Nat.mod_lt _ (pow_pos (by norm_num) (renderScale q)))]
    rw [show ∀ m n : ℕ, m / n * n + m % n = m from
      fun m n => by rw [mul_comm]; exact Nat.div_add_mod m n]
    rw [hMN, hmk]

/-! Lemmas about the rendered character runs. -/

theorem renderFloat_chars (q : ℚ) (c : Char) (hc : c ∈ renderFloat q) :
    c.isDigit = true ∨ c = '.' ∨ c = '-' := by
  unfold renderFloat at hc
  rcases List.mem_append.mp hc with h | h
  · rcases List.mem_append.mp h with h | h
    · by_cases hq : q.num < 0
      · rw [if_pos hq, List.mem_singleton] at h
        exact Or.inr (Or.inr h)
      · rw [if_neg hq] at h
        simp at h
    · exact Or.inl (mem_natToDigitChars_isDigit _ c h)
  · rcases List.mem_cons.mp h with h | h
    · exact Or.inr (Or.inl h)
    · exact Or.inl (mem_padLeft_isDigit _ _ c h)

theorem renderFloat_ne_nil (q : ℚ) : renderFloat q ≠ [] := by
  unfold renderFloat
  intro hnil
  rcases List.append_eq_nil.mp hnil with ⟨-, h2⟩
  exact List.cons_ne_nil _ _ h2

theorem splitComma_renderFloat (q : ℚ) (rest : List Char) :
    splitAtFirst (fun c => c = ',') (renderFloat q ++ ',' :: rest)
      = some (renderFloat q, rest) := by
  apply splitAtFirst_append
  · intro a ha
    obtain ⟨h1, -, -, -, -, -, -⟩ := tokChar_facts a (renderFloat_chars q a ha)
    simp [h1]
  · simp

theorem splitParen_renderFloat (q : ℚ) (rest : List Char) :
    splitAtFirst (fun c => c = ')') (renderFloat q ++ ')' :: rest)
      = some (renderFloat q, rest) := by
  apply splitAtFirst_append
  · intro a ha
    obtain ⟨-, h2, -, -, -, -, -⟩ := tokChar_facts a (renderFloat_chars q a ha)
    simp [h2]
  · simp

theorem pointStr_decomp (p : Point) (rest : List Char) :
    Point.str p ++ rest
      = '(' :: (renderFloat p.x ++ ',' :: (renderFloat p.y ++ ')' :: rest)) := by
  unfold Point.str
  simp [List.append_assoc]

theorem pointMatchCore_render (p : Point) (rest : List Char)
    (hx : isDecDen p.x.den = true) (hy : isDecDen p.y.den = true) :
    pointMatchCore (Point.str p ++ rest) = some (p.x, p.y, rest) := by
  rw [pointStr_decomp]
  simp only [pointMatchCore, splitComma_renderFloat, splitParen_renderFloat,
    floatOfTok_renderFloat p.x hx, floatOfTok_renderFloat p.y hy]

theorem fromString_render (p : Point) (rest : List Char)
    (hx : isDecDen p.x.den = true) (hy : isDecDen p.y.den = true) :
    Point.fromString (String.mk (Point.str p ++ rest)) = .ok p := by
  unfold Point.fromString
  rw [show (String.mk (Point.str p ++ rest)).data = Point.str p ++ rest from rfl]
  rw [pointMatchCore_render p rest hx hy]

theorem fromString_pointStr (p : Point)
    (hx : isDecDen p.x.den = true) (hy : isDecDen p.y.den = true) :
    Point.fromString (String.mk (Point.str p)) = .ok p := by
  have h := fromString_render p [] hx hy
  simpa using h

/-! Lemmas about the sequence tokenizer. -/

theorem takeUntilClose_lt (cs : List Char) :
    ∀ b r, takeUntilClose cs = some (b, r) → r.length < cs.length := by
  induction cs with
  | nil => intro b r h; simp [takeUntilClose] at h
  | cons c cs ih =>
    intro b r h
    rw [takeUntilClose] at h
    by_cases h1 : c = ')'
    · rw [if_pos h1] at h
      injection h with h
      injection h with hb hr
      subst hr
      simp
    · rw [if_neg h1] at h
      by_cases h2 : c = '\n'
      · rw [if_pos h2] at h
        cases h
      · rw [if_neg h2] at h
        cases htc : takeUntilClose cs with
        | none => rw [htc] at h; cases h
        | some br =>
          rw [htc] at h
          injection h with h
          have hlen := ih br.1 br.2 htc
          have hr : r = br.2 := congrArg Prod.snd h.symm
          subst hr
          simp
          omega

theorem takeUntilClose_append (xs ys : List Char)
    (hxs : ∀ c ∈ xs, c ≠ ')' ∧ c ≠ '\n') :
    takeUntilClose (xs ++ ')' :: ys) = some (xs, ys) := by
  induction xs with
  | nil => simp [takeUntilClose]
  | cons a xs ih =>
    obtain ⟨h1, h2⟩ := hxs a (List.mem_cons_self a xs)
    rw [List.cons_append, takeUntilClose, if_neg h1, if_neg h2,
      ih (fun c hc => hxs c (List.mem_cons_of_mem a hc))]
    rfl

theorem findallAux_fuel (n : ℕ) : ∀ m cs, cs.length ≤ n → cs.length ≤ m →
    findallAux n cs = findallAux m cs := by
  induction n with
  | zero =>
    intro m cs h1 _
    have hnil : cs = [] := List.length_eq_zero.mp (Nat.le_zero.mp h1)
    subst hnil
    cases m <;> rfl
  | succ n ih =>
    intro m cs h1 h2
    cases cs with
    | nil => cases m <;> rfl
    | cons c rest =>
      cases m with
      | zero => simp at h2
      | succ m =>
        have hr1 : rest.length ≤ n := by simp [List.length_cons] at h1; omega
        have hr2 : rest.length ≤ m := by simp [List.length_cons] at h2; omega
        simp only [findallAux]
        by_cases hcond : c = '(' ∧ rest.head? ≠ some '('
        · rw [if_pos hcond, if_pos hcond]
          cases htc : takeUntilClose rest with
          | none => exact ih m rest hr1 hr2
          | some br =>
            have hlt := takeUntilClose_lt rest br.1 br.2 (by simpa using htc)
            simp only [htc]
            rw [ih m br.2 (by omega) (by omega)]
        · rw [if_neg hcond, if_neg hcond]
          exact ih m rest hr1 hr2

theorem findall_cons_skip (c : Char) (cs : List Char)
    (h : ¬(c = '(' ∧ cs.head? ≠ some '(')) : findall (c :: cs) = findall cs := by
  unfold findall
  simp only [List.length_cons, findallAux, if_neg h]

theorem findall_match (rest b r : List Char) (hhead : rest.head? ≠ some '(')
    (htc : takeUntilClose rest = some (b, r)) :
    findall ('(' :: rest) = ('(' :: b ++ [')']) :: findall r := by
  unfold findall
  simp only [List.length_cons, findallAux, htc]
  rw [if_pos (show True ∧ rest.head? ≠ some '(' from ⟨trivial, hhead⟩)]
  have hlt := takeUntilClose_lt rest b r htc
  rw [findallAux_fuel rest.length r.length r (by omega) le_rfl]

theorem findall_no_open (cs : List Char) (h : ∀ c ∈ cs, c ≠ '(') : findall cs = [] := by
  induction cs with
  | nil => rfl
  | cons c cs ih =>
    rw [findall_cons_skip c cs (fun hc => h c (List.mem_cons_self c cs) hc.1)]
    exact ih (fun x hx => h x (List.mem_cons_of_mem c hx))

theorem pointInner_facts (p : Point) (c : Char)
    (hc : c ∈ renderFloat p.x ++ ',' :: renderFloat p.y) : c ≠ ')' ∧ c ≠ '\n' := by
  rcases List.mem_append.mp hc with h | h
  · obtain ⟨-, h2, -, h4, -, -, -⟩ := tokChar_facts c (renderFloat_chars _ c h)
    exact ⟨h2, h4⟩
  · rcases List.mem_cons.mp h with h | h
    · subst h; exact ⟨by decide, by decide⟩
    · obtain ⟨-, h2, -, h4, -, -, -⟩ := tokChar_facts c (renderFloat_chars _ c h)
      exact ⟨h2, h4⟩

theorem pointInner_head (p : Point) (rest : List Char) :
    (renderFloat p.x ++ ',' :: (renderFloat p.y ++ ')' :: rest)).head? ≠ some '(' := by
  obtain ⟨c, cs, hcons⟩ := List.exists_cons_of_ne_nil (renderFloat_ne_nil p.x)
  obtain ⟨-, -, h3, -, -, -, -⟩ := tokChar_facts c
    (renderFloat_chars p.x c (by rw [hcons]; exact List.mem_cons_self c cs))
  rw [hcons]
  simpa using h3

theorem findall_pointStr (p : Point) (rest : List Char) :
    findall (Point.str p ++ rest) = Point.str p :: findall rest := by
  rw [pointStr_decomp]
  have htc : takeUntilClose (renderFloat p.x ++ ',' :: (renderFloat p.y ++ ')' :: rest))
      = some (renderFloat p.x ++ ',' :: renderFloat p.y, rest) := by
    have h := takeUntilClose_append (renderFloat p.x ++ ',' :: renderFloat p.y) rest
      (fun c hc => pointInner_facts p c hc)
    simpa [List.append_assoc] using h
  rw [findall_match _ _ _ (pointInner_head p rest) htc]
  congr 1

theorem findall_joinPoints (ps : List Point) (suffix : List Char)
    (hs : ∀ c ∈ suffix, c ≠ '(') :
    findall (joinPoints ps ++ suffix) = ps.map Point.str := by
  induction ps with
  | nil => simpa [joinPoints] using findall_no_open suffix hs
  | cons p ps ih =>
    cases ps with
    | nil =>
      simp only [joinPoints]
      rw [findall_pointStr p suffix, findall_no_open suffix hs]
      simp
    | cons p2 ps2 =>
      simp only [joinPoints]
      rw [show (Point.str p ++ ',' :: joinPoints (p2 :: ps2)) ++ suffix
          = Point.str p ++ ',' :: (joinPoints (p2 :: ps2) ++ suffix) by
        simp [List.append_assoc]]
      rw [findall_pointStr p (',' :: (joinPoints (p2 :: ps2) ++ suffix))]
      rw [findall_cons_skip ',' _ (by simp)]
      rw [ih]
      simp

theorem mapM_fromString_render (ps : List Point)
    (h : ∀ p ∈ ps, isDecDen p.x.den = true ∧ isDecDen p.y.den = true) :
    (ps.map Point.str).mapM (fun t => Point.fromString (String.mk t)) = Except.ok ps := by
  induction ps with
  | nil => rfl
  | cons p ps ih =>
    have hp := h p (List.mem_cons_self p ps)
    rw [List.map_cons, List.mapM_cons, fromString_pointStr p hp.1 hp.2,
      ih (fun x hx => h x (List.mem_cons_of_mem p hx))]
    rfl

theorem joinPoints_ne_nil (p : Point) (ps : List Point) : joinPoints (p :: ps) ≠ [] := by
  cases ps <;> simp [joinPoints, Point.str]

theorem toPython_joinPoints (ps : List Point) (hne : ps ≠ [])
    (h : ∀ p ∈ ps, isDecDen p.x.den = true ∧ isDecDen p.y.den = true) :
    toPython (.pystr (String.mk (joinPoints ps))) = .ok (.pypts ps) := by
  obtain ⟨p, ps', rfl⟩ := List.exists_cons_of_ne_nil hne
  simp only [toPython]
  rw [if_neg (by simpa [List.isEmpty_iff] using joinPoints_ne_nil p ps')]
  have hfind : findall (joinPoints (p :: ps')) = (p :: ps').map Point.str := by
    have hf := findall_joinPoints (p :: ps') [] (by simp)
    simpa using hf
  rw [hfind, mapM_fromString_render _ h]
  rfl

theorem toPython_path (ps : List Point) (hne : ps ≠ [])
    (h : ∀ p ∈ ps, isDecDen p.x.den = true ∧ isDecDen p.y.den = true) :
    toPython (.pystr ("[" ++ String.mk (joinPoints ps) ++ "]")) = .ok (.pypts ps) := by
  obtain ⟨p, ps', rfl⟩ := List.exists_cons_of_ne_nil hne
  simp only [toPython]
  have hdata : ("[" ++ String.mk (joinPoints (p :: ps')) ++ "]").data
      = '[' :: (joinPoints (p :: ps') ++ [']']) := by
    simp [String.data_append]
  rw [hdata]
  rw [if_neg (by simp)]
  rw [findall_cons_skip '[' _ (by simp)]
  rw [findall_joinPoints (p :: ps') [']'] (by simp)]
  rw [mapM_fromString_render _ h]
  rfl

/-! Claim theorems. -/

/-- C1 counterexample: on input `[(1,2),(2,1)]` the Box serializer does not
reorder — its output text parses back to `[(1,2),(2,1)]`, which is not the
claimed output ordering `[(2,2),(1,1)]`. -/
theorem C1_counterexample :
    boxGetPrepValue (some [Point.mk 1 2, Point.mk 2 1])
        = .ok (some (String.mk (joinPoints [Point.mk 1 2, Point.mk 2 1])))
    ∧ toPython (.pystr (String.mk (joinPoints [Point.mk 1 2, Point.mk 2 1])))
        = .ok (.pypts [Point.mk 1 2, Point.mk 2 1])
    ∧ ([Point.mk 1 2, Point.mk 2 1] : List Point) ≠ [Point.mk 2 2, Point.mk 1 1] :=
  ⟨rfl, rfl, by decide⟩

/-- C1 (amended): for every two-point input with decimal coordinates, the Box
shape's `get_prep_value` emits the points in input order, without any
canonical reordering: its output is the plain comma join, and parsing that
output returns the two points exactly as given. -/
theorem C1_box_order_preserved (p q : Point)
    (hp1 : isDecDen p.x.den = true) (hp2 : isDecDen p.y.den = true)
    (hq1 : isDecDen q.x.den = true) (hq2 : isDecDen q.y.den = true) :
    boxGetPrepValue (some [p, q]) = .ok (some (String.mk (joinPoints [p, q])))
    ∧ toPython (.pystr (String.mk (joinPoints [p, q]))) = .ok (.pypts [p, q]) := by
  refine ⟨rfl, toPython_joinPoints [p, q] (by simp) ?_⟩
  intro r hr
  rcases List.mem_cons.mp hr with h | h
  · subst h; exact ⟨hp1, hp2⟩
  · rcases List.mem_cons.mp h with h2 | h2
    · subst h2; exact ⟨hq1, hq2⟩
    · exact absurd h2 (List.not_mem_nil r)

/-- C1 witness: the amended theorem applied at the input `[(1,2),(2,1)]`. -/
theorem C1_box_order_preserved_witness :
    boxGetPrepValue (some [Point.mk 1 2, Point.mk 2 1])
        = .ok (some (String.mk (joinPoints [Point.mk 1 2, Point.mk 2 1])))
    ∧ toPython (.pystr (String.mk (joinPoints [Point.mk 1 2, Point.mk 2 1])))
        = .ok (.pypts [Point.mk 1 2, Point.mk 2 1]) :=
  C1_box_order_preserved (Point.mk 1 2) (Point.mk 2 1)
    (by decide) (by decide) (by decide) (by decide)

/-- C2 (code bug): the Circle serializer's format template is malformed — on
the circle with center `(1,1)` and radius `1` (and indeed on every present
circle) `get_prep_value` raises the format `ValueError` instead of returning
text, because the lone leftover closing curly bracket in the template is
rejected by `str.format` itself.  No serialized text is ever produced, so the
claimed serialize/parse round trip through `Circle.from_string` fails. -/
theorem C2_circle_roundtrip_fails :
    circleGetPrepValue (some (Circle.mk (Point.mk 1 1) 1)) = .error circleFormatErrorMsg
    ∧ ∀ c : Circle, circleGetPrepValue (some c) = .error circleFormatErrorMsg :=
  ⟨rfl, fun _ => rfl⟩

/-- C3: for a sequence of points with decimal (hence every finite-float)
coordinates meeting the shape's arity constraint, parsing the text produced by
the shape's `get_prep_value` through `to_python` yields the original sequence
back exactly — for Path (at least 2 points), Segment (exactly 2) and Box
(exactly 2; no reordering happens, so equality is exact). -/
theorem C3_sequence_roundtrip (ps : List Point)
    (h : ∀ p ∈ ps, isDecDen p.x.den = true ∧ isDecDen p.y.den = true) :
    (2 ≤ ps.length → ∃ s, pathGetPrepValue (some ps) = .ok (some s)
        ∧ toPython (.pystr s) = .ok (.pypts ps))
    ∧ (ps.length = 2 → ∃ s, segmentGetPrepValue (some ps) = .ok (some s)
        ∧ toPython (.pystr s) = .ok (.pypts ps))
    ∧ (ps.length = 2 → ∃ s, boxGetPrepValue (some ps) = .ok (some s)
        ∧ toPython (.pystr s) = .ok (.pypts ps)) := by
  have hne : 1 ≤ ps.length → ps ≠ [] := by
    intro h1 hn
    subst hn
    simp at h1
  refine ⟨?_, ?_, ?_⟩
  · intro hlen
    refine ⟨"[" ++ String.mk (joinPoints ps) ++ "]", ?_,
      toPython_path ps (hne (by omega)) h⟩
    obtain ⟨p, ps', rfl⟩ := List.exists_cons_of_ne_nil (hne (by omega))
    simp only [pathGetPrepValue]
    rw [if_neg (by simp), if_neg (by simp at hlen ⊢; omega)]
  · intro hlen
    refine ⟨String.mk (joinPoints ps), ?_,
      toPython_joinPoints ps (hne (by omega)) h⟩
    obtain ⟨p, ps', rfl⟩ := List.exists_cons_of_ne_nil (hne (by omega))
    simp only [segmentGetPrepValue]
    rw [if_neg (by simp), if_neg (by omega)]
    simp [pointsGetPrepValue]
  · intro hlen
    refine ⟨String.mk (joinPoints ps), ?_,
      toPython_joinPoints ps (hne (by omega)) h⟩
    obtain ⟨p, ps', rfl⟩ := List.exists_cons_of_ne_nil (hne (by omega))
    simp only [boxGetPrepValue]
    rw [if_neg (by simp), if_neg (by omega)]
    simp [pointsGetPrepValue]

/-- C3 witness: the round trip evaluated on the two-point sequence
`[(1,1),(2,2)]` for all three sequence shapes. -/
theorem C3_sequence_roundtrip_witness :
    (∃ s, pathGetPrepValue (some [Point.mk 1 1, Point.mk 2 2]) = .ok (some s)
        ∧ toPython (.pystr s) = .ok (.pypts [Point.mk 1 1, Point.mk 2 2]))
    ∧ (∃ s, segmentGetPrepValue (some [Point.mk 1 1, Point.mk 2 2]) = .ok (some s)
        ∧ toPython (.pystr s) = .ok (.pypts [Point.mk 1 1, Point.mk 2 2]))
    ∧ (∃ s, boxGetPrepValue (some [Point.mk 1 1, Point.mk 2 2]) = .ok (some s)
        ∧ toPython (.pystr s) = .ok (.pypts [Point.mk 1 1, Point.mk 2 2])) := by
  have h := C3_sequence_roundtrip [Point.mk 1 1, Point.mk 2 2] (by decide)
  exact ⟨h.1 (by decide), h.2.1 (by decide), h.2.2 (by decide)⟩

/-- C4: every non-empty sequence violating a shape's arity constraint is
rejected with the shape's exact error message: Path below 2 points, Polygon
below 3 points, Segment and Box away from exactly 2 points. -/
theorem C4_arity_errors :
    (∀ ps : List Point, ps ≠ [] → ps.length < 2 →
        pathGetPrepValue (some ps) = .error ("Needs at minimum 2 points"))
    ∧ (∀ ps : List Point, ps ≠ [] → ps.length < 3 →
        polygonGetPrepValue (some ps) = .error ("Needs at minimum 3 points"))
    ∧ (∀ ps : List Point, ps ≠ [] → ps.length ≠ 2 →
        segmentGetPrepValue (some ps) = .error ("Segment needs exactly two points"))
    ∧ (∀ ps : List Point, ps ≠ [] → ps.length ≠ 2 →
        boxGetPrepValue (some ps) = .error ("Box needs exactly two points")) := by
  refine ⟨?_, ?_, ?_, ?_⟩
  · intro ps hne hlen
    obtain ⟨p, ps', rfl⟩ := List.exists_cons_of_ne_nil hne
    simp only [pathGetPrepValue]
    rw [if_neg (by simp), if_pos hlen]
  · intro ps hne hlen
    obtain ⟨p, ps', rfl⟩ := List.exists_cons_of_ne_nil hne
    simp only [polygonGetPrepValue]
    rw [if_neg (by simp), if_pos hlen]
  · intro ps hne hlen
    obtain ⟨p, ps', rfl⟩ := List.exists_cons_of_ne_nil hne
    simp only [segmentGetPrepValue]
    rw [if_neg (by simp), if_pos hlen]
  · intro ps hne hlen
    obtain ⟨p, ps', rfl⟩ := List.exists_cons_of_ne_nil hne
    simp only [boxGetPrepValue]
    rw [if_neg (by simp), if_pos hlen]

/-- C4 witness: the listed arity violations — a 1-point Path, a 2-point
Polygon, and 1- and 3-point Segments and Boxes — with their messages. -/
theorem C4_arity_errors_witness :
    pathGetPrepValue (some [Point.mk 0 0]) = .error ("Needs at minimum 2 points")
    ∧ polygonGetPrepValue (some [Point.mk 0 0, Point.mk 0 0])
        = .error ("Needs at minimum 3 points")
    ∧ segmentGetPrepValue (some [Point.mk 1 1])
        = .error ("Segment needs exactly two points")
    ∧ segmentGetPrepValue (some [Point.mk 1 1, Point.mk 2 2, Point.mk 3 3])
        = .error ("Segment needs exactly two points")
    ∧ boxGetPrepValue (some [Point.mk 1 1])
        = .error ("Box needs exactly two points")
    ∧ boxGetPrepValue (some [Point.mk 1 1, Point.mk 2 2, Point.mk 3 3])
        = .error ("Box needs exactly two points") := by
  have h := C4_arity_errors
  exact ⟨h.1 _ (by decide) (by decide), h.2.1 _ (by decide) (by decide),
    h.2.2.1 _ (by decide) (by decide), h.2.2.1 _ (by decide) (by decide),
    h.2.2.2 _ (by decide) (by decide), h.2.2.2 _ (by decide) (by decide)⟩

/-- C5: a Polygon of at least 3 points whose first and last points differ is
rejected with the closure message; with first equal to last it serializes
successfully; and a non-empty Polygon below 3 points gets the arity error
even when it is also not closed, i.e. the count check runs first. -/
theorem C5_polygon_closure :
    (∀ ps : List Point, 3 ≤ ps.length → ps.head? ≠ ps.getLast? →
        polygonGetPrepValue (some ps) = .error ("Not self-closing polygon"))
    ∧ (∀ ps : List Point, 3 ≤ ps.length → ps.head? = ps.getLast? →
        polygonGetPrepValue (some ps)
          = .ok (some ("(" ++ String.mk (joinPoints ps) ++ ")")))
    ∧ (∀ ps : List Point, ps ≠ [] → ps.length < 3 →
        polygonGetPrepValue (some ps) = .error ("Needs at minimum 3 points")) := by
  refine ⟨?_, ?_, ?_⟩
  · intro ps hlen hcl
    have hne : ps ≠ [] := by intro hn; subst hn; simp at hlen
    obtain ⟨p, ps', rfl⟩ := List.exists_cons_of_ne_nil hne
    simp only [polygonGetPrepValue]
    rw [if_neg (by simp), if_neg (by omega), if_pos hcl]
  · intro ps hlen hcl
    have hne : ps ≠ [] := by intro hn; subst hn; simp at hlen
    obtain ⟨p, ps', rfl⟩ := List.exists_cons_of_ne_nil hne
    simp only [polygonGetPrepValue]
    rw [if_neg (by simp), if_neg (by omega), if_neg (by simp [hcl])]
  · intro ps hne hlen
    obtain ⟨p, ps', rfl⟩ := List.exists_cons_of_ne_nil hne
    simp only [polygonGetPrepValue]
    rw [if_neg (by simp), if_pos hlen]

/-- C5 witness: `[(0,0),(1,1),(2,2)]` fails closure, `[(0,0),(1,1),(0,0)]`
succeeds, and the two-point not-closed `[(0,0),(1,1)]` gets the arity error. -/
theorem C5_polygon_closure_witness :
    polygonGetPrepValue (some [Point.mk 0 0, Point.mk 1 1, Point.mk 2 2])
        = .error ("Not self-closing polygon")
    ∧ polygonGetPrepValue (some [Point.mk 0 0, Point.mk 1 1, Point.mk 0 0])
        = .ok (some ("(" ++ String.mk
            (joinPoints [Point.mk 0 0, Point.mk 1 1, Point.mk 0 0]) ++ ")"))
    ∧ polygonGetPrepValue (some [Point.mk 0 0, Point.mk 1 1])
        = .error ("Needs at minimum 3 points") := by
  have h := C5_polygon_closure
  exact ⟨h.1 _ (by decide) (by decide), h.2.1 _ (by decide) (by decide),
    h.2.2 _ (by decide) (by decide)⟩

/-- C6: for all four sequence shapes, `get_prep_value` of an absent or empty
sequence returns absence and raises no arity or closure error. -/
theorem C6_null_passthrough :
    pathGetPrepValue none = .ok none ∧ pathGetPrepValue (some []) = .ok none
    ∧ polygonGetPrepValue none = .ok none ∧ polygonGetPrepValue (some []) = .ok none
    ∧ segmentGetPrepValue none = .ok none ∧ segmentGetPrepValue (some []) = .ok none
    ∧ boxGetPrepValue none = .ok none ∧ boxGetPrepValue (some []) = .ok none :=
  ⟨rfl, rfl, rfl, rfl, rfl, rfl, rfl, rfl⟩

/-- C7: for every point whose coordinates are decimal rationals — a superset
of the finite binary floats — parsing the formatted text recovers the point:
`parse(format(Point(x,y))) = Point(x,y)`. -/
theorem C7_point_roundtrip (x y : ℚ)
    (hx : isDecDen x.den = true) (hy : isDecDen y.den = true) :
    Point.fromString (String.mk (Point.str (Point.mk x y))) = .ok (Point.mk x y) :=
  fromString_pointStr (Point.mk x y) hx hy

/-- C7 witness: the round trip at the point `(3/2, -1/2)`. -/
theorem C7_point_roundtrip_witness :
    isDecDen ((mkRat 3 2).den) = true ∧ isDecDen ((mkRat (-1) 2).den) = true
    ∧ Point.fromString (String.mk (Point.str (Point.mk (mkRat 3 2) (mkRat (-1) 2))))
        = .ok (Point.mk (mkRat 3 2) (mkRat (-1) 2)) :=
  ⟨by decide, by decide,
    C7_point_roundtrip (mkRat 3 2) (mkRat (-1) 2) (by decide) (by decide)⟩

/-- C8: the coordinate literal pairs `(.5,-.5)`, `(1.5,-1.5)` and `(1,-1)`
all parse to the expected points, and `abc`, `(1,)` and `()` all fail with
the format error carrying the offending text. -/
theorem C8_literal_coverage :
    Point.fromString ("(.5,-.5)") = .ok (Point.mk (mkRat 1 2) (mkRat (-1) 2))
    ∧ Point.fromString ("(1.5,-1.5)") = .ok (Point.mk (mkRat 3 2) (mkRat (-3) 2))
    ∧ Point.fromString ("(1,-1)") = .ok (Point.mk 1 (-1))
    ∧ Point.fromString ("abc") = .error ("Value abc is not a valid point")
    ∧ Point.fromString ("(1,)") = .error ("Value (1,) is not a valid point")
    ∧ Point.fromString ("()") = .error ("Value () is not a valid point") :=
  ⟨rfl, rfl, rfl, rfl, rfl, rfl⟩

/-- C9: the point parser is anchored at the start but need not consume the
whole input — any text beginning with a well-formed `(x,y)` parses to that
point with trailing garbage ignored, while text that does not match the
grammar at the start raises the format error carrying the offending text. -/
theorem C9_anchored_start :
    (∀ x y : ℚ, isDecDen x.den = true → isDecDen y.den = true → ∀ rest : List Char,
        Point.fromString (String.mk (Point.str (Point.mk x y) ++ rest))
          = .ok (Point.mk x y))
    ∧ (∀ s : String, pointMatchCore s.data = none →
        Point.fromString s = .error ("Value " ++ s ++ " is not a valid point")) := by
  constructor
  · intro x y hx hy rest
    exact fromString_render (Point.mk x y) rest hx hy
  · intro s hs
    unfold Point.fromString
    rw [hs]

/-- C9 witness: `(1,2)` followed by the garbage `gar` still parses to the
point `(1,2)`, and `abc` fails with the format error. -/
theorem C9_anchored_start_witness :
    Point.fromString (String.mk (Point.str (Point.mk 1 2) ++ ['g', 'a', 'r']))
        = .ok (Point.mk 1 2)
    ∧ Point.fromString ("abc") = .error ("Value " ++ "abc" ++ " is not a valid point") :=
  ⟨C9_anchored_start.1 1 2 (by decide) (by decide) ['g', 'a', 'r'],
    C9_anchored_start.2 ("abc") (by decide)⟩

/-- C10: the decoder is an identity on already-decoded values — absence maps
to absence and a sequence of `Point` instances is returned unchanged — while
non-empty text is tokenized by the split pattern and parsed point by point. -/
theorem C10_to_python_identity :
    toPython .pynone = .ok .pynone
    ∧ (∀ l : List Point, toPython (.pypts l) = .ok (.pypts l))
    ∧ (∀ s : String, s.data ≠ [] →
        toPython (.pystr s)
          = ((findall s.data).mapM (fun t => Point.fromString (String.mk t))).map .pypts) := by
  refine ⟨rfl, fun l => rfl, fun s hs => ?_⟩
  simp only [toPython]
  rw [if_neg (by simpa [List.isEmpty_iff] using hs)]

/-- C10 witness: the tokenizing branch evaluated on the text `(1.0,1.0)`. -/
theorem C10_to_python_identity_witness :
    toPython (.pystr ("(1.0,1.0)"))
      = ((findall ("(1.0,1.0)" : String).data).mapM
          (fun t => Point.fromString (String.mk t))).map .pypts :=
  C10_to_python_identity.2.2 ("(1.0,1.0)") (by decide)

end PG
